import Mathlib

/-!
# Verification of `mypy/git.py` (git integrity checking)

Shallow embedding of the module `mypy/git.py`.  Python byte strings are
modelled as `List Nat` (one `Nat` per byte), Python `str` as Lean `String`.
The external world (filesystem and subprocesses) is modelled by an
environment `Env` recording, for every query the module can make, the
answer the world would give.  `subprocess.check_output` either returns the
captured output, raises `CalledProcessError` on a non-zero exit status, or
raises `FileNotFoundError`/`OSError` when the executable cannot be spawned;
for shell commands (`shell=True`) the shell itself always spawns, so a
missing `git` surfaces as a non-zero exit (`CalledProcessError`), which is
why `Env.shell` has just two outcomes while the list-form probe
(`subprocess.check_output(["git", "config", "-l"])`) used by `have_git`
has three (`ProbeResult`).
-/

deriving instance DecidableEq for Except

namespace GitVerify

/-! ## Byte-string helpers (Python `bytes` as `List Nat`) -/

/-- The bytes Python `bytes.strip()` removes: ASCII whitespace. -/
def isSpaceByte (b : Nat) : Bool :=
  b = 32 || b = 9 || b = 10 || b = 13 || b = 11 || b = 12

/-- Python `bytes.strip()`: ASCII whitespace removed from both ends. -/
def stripBytes (bs : List Nat) : List Nat :=
  ((bs.dropWhile isSpaceByte).reverse.dropWhile isSpaceByte).reverse

/-- Python `line[1:].split(b" ")`: split on every single space byte (0x20),
keeping empty segments; the result is never the empty list
(`b"".split(b" ") == [b""]`). -/
def splitOnSpace : List Nat → List (List Nat)
  | [] => [[]]
  | b :: bs =>
    if b = 32 then [] :: splitOnSpace bs
    else
      match splitOnSpace bs with
      | [] => [[b]]
      | s :: rest => (b :: s) :: rest

/-- Python `bytes.splitlines()` worker: `cur` is the line being accumulated.
Line boundaries are `\n`, `\r` and `\r\n`; a trailing boundary does not
produce a trailing empty line. -/
def splitlinesAux : List Nat → List Nat → List (List Nat)
  | [], cur => [cur]
  | [b], cur =>
    if b = 13 || b = 10 then [cur] else [cur ++ [b]]
  | b :: b2 :: bs, cur =>
    if b = 13 then
      if b2 = 10 then cur :: (if bs.isEmpty then [] else splitlinesAux bs [])
      else cur :: splitlinesAux (b2 :: bs) []
    else if b = 10 then cur :: splitlinesAux (b2 :: bs) []
    else splitlinesAux (b2 :: bs) (cur ++ [b])

/-- Python `bytes.splitlines()`. -/
def splitlinesB (bs : List Nat) : List (List Nat) :=
  if bs.isEmpty then [] else splitlinesAux bs []

/-! ## `pipes.quote` and a POSIX shell word lexer

`run_in_dir` builds the string `"cd " + pipes.quote(dir) + "; " + command`
and hands it to a POSIX shell.  To reason about what the shell does with
it we model `pipes.quote` (identical to `shlex.quote`) and a word lexer
for the quoted fragment of the shell language.  The lexer is conservative:
any unquoted character whose shell meaning we do not model (expansions,
redirections, globbing, ...) makes it return `none`. -/

def squoteC : Char := Char.ofNat 39
def dquoteC : Char := Char.ofNat 34
def backtickC : Char := Char.ofNat 96
def backslashC : Char := Char.ofNat 92

/-- The characters `pipes.quote` treats as safe, i.e. the regex class
of ASCII alphanumerics, underscore, `@ % + = : , .`, slash and hyphen
(complement of `_find_unsafe` with `re.ASCII`). -/
def safeExtra : List Char := ['_', '@', '%', '+', '=', ':', ',', '.', '/', '-']

def safeChar (c : Char) : Bool :=
  c.isAlphanum || safeExtra.contains c

/-- What `pipes.quote` substitutes for a single quote inside a quoted
string: close the single quotes, emit `"'"`, reopen them. -/
def quoteEsc : List Char := [squoteC, dquoteC, squoteC, dquoteC, squoteC]

/-- Replacement `s.replace` of each single quote, from `pipes.quote`. -/
def replaceSquote : List Char → List Char
  | [] => []
  | c :: cs =>
    if c = squoteC then quoteEsc ++ replaceSquote cs
    else c :: replaceSquote cs

/-- Python `pipes.quote` on a character list. -/
def shellQuoteL (s : List Char) : List Char :=
  if s = [] then [squoteC, squoteC]
  else if s.all safeChar then s
  else squoteC :: (replaceSquote s ++ [squoteC])

/-- Python `pipes.quote`. -/
def shellQuote (s : String) : String := String.mk (shellQuoteL s.data)

/-- The exact string `run_in_dir` passes to the shell:
`"cd " + pipes.quote(dir) + "; " + command`. -/
def run_in_dir_command (dir command : String) : String :=
  "cd " ++ shellQuote dir ++ "; " ++ command

/-- Unquoted characters that are special to a POSIX shell and whose
behaviour the lexer does not model; meeting one unquoted aborts the lex. -/
def shellSpecials : List Char :=
  ['$', backtickC, backslashC, '|', '&', '<', '>', '(', ')', '*', '?',
   Char.ofNat 91, Char.ofNat 93, Char.ofNat 123, Char.ofNat 125,
   '~', '#', '!', Char.ofNat 9, Char.ofNat 10, Char.ofNat 13]

/-- Lexer quoting state: outside quotes, inside `...`-single quotes,
inside double quotes. -/
inductive QMode
  | normal
  | single
  | double
deriving DecidableEq

/-- Word lexer for the first simple command of a shell input (up to the
first top-level `;`).  `started` records whether the current word has been
begun (so that `cd ''` yields an empty-string argument), `cur` is the word
being accumulated, `acc` the completed words.  Returns the words of the
first command and the raw remainder after the `;`. -/
def lexAux : QMode → List Char → Bool → List Char → List (List Char) →
    Option (List (List Char) × List Char)
  | .normal, [], started, cur, acc =>
      some (acc ++ (if started then [cur] else []), [])
  | .normal, c :: cs, started, cur, acc =>
      if c = squoteC then lexAux .single cs true cur acc
      else if c = dquoteC then lexAux .double cs true cur acc
      else if c = ' ' then
        lexAux .normal cs false [] (acc ++ (if started then [cur] else []))
      else if c = ';' then
        some (acc ++ (if started then [cur] else []), cs)
      else if c ∈ shellSpecials then none
      else lexAux .normal cs true (cur ++ [c]) acc
  | .single, [], _, _, _ => none
  | .single, c :: cs, _, cur, acc =>
      if c = squoteC then lexAux .normal cs true cur acc
      else lexAux .single cs true (cur ++ [c]) acc
  | .double, [], _, _, _ => none
  | .double, c :: cs, _, cur, acc =>
      if c = dquoteC then lexAux .normal cs true cur acc
      else if c = '$' ∨ c = backtickC ∨ c = backslashC then none
      else lexAux .double cs true (cur ++ [c]) acc

def lexFirstCommand (s : List Char) : Option (List (List Char) × List Char) :=
  lexAux .normal s false [] []

def lexFirstCommandS (s : String) : Option (List String × String) :=
  (lexFirstCommand s.data).map (fun p => (p.1.map String.mk, String.mk p.2))

/-! ## Diagnostic messages -/

/-- A single-quote character as a string (the messages contain them). -/
def sqs : String := String.singleton squoteC

def warn_no_git_executable_msg : String :=
  "Warning: Couldn" ++ sqs ++ "t check git integrity. git executable not in path."

def warn_dirty_msg (dir : String) : String :=
  "Warning: git module " ++ sqs ++ dir ++ sqs ++ " has uncommitted changes."

def warn_extra_files_msg (dir : String) : String :=
  "Warning: git module " ++ sqs ++ dir ++ sqs ++ " has untracked files."

/-- The four stderr lines printed by `error_submodule_not_initialized`. -/
def error_submodule_not_init_msgs (name dir : String) : List String :=
  ["Submodule " ++ sqs ++ name ++ sqs ++ " not initialized.",
   "Please run:",
   "  cd " ++ shellQuote dir,
   "  git submodule init " ++ name]

/-- The four stderr lines printed by `error_submodule_not_updated`. -/
def error_submodule_not_updated_msgs (name dir : String) : List String :=
  ["Submodule " ++ sqs ++ name ++ sqs ++ " not updated.",
   "Please run:",
   "  cd " ++ shellQuote dir,
   "  git submodule update " ++ name]

/-! ## The environment: filesystem and subprocess answers -/

/-- Outcome of `subprocess.check_output(["git", "config", "-l"])`:
success, non-zero exit (`CalledProcessError`, the only exception
`have_git` catches), or executable not found (`FileNotFoundError`,
an `OSError`, which `have_git` does **not** catch). -/
inductive ProbeResult
  | success
  | exitFailure
  | fileNotFound
deriving DecidableEq

/-- The Python exceptions that can escape the module. -/
inductive PyErr
  | calledProcessError
  | fileNotFoundError
  | valueError
  | indexError
deriving DecidableEq

/-- How a call of `verify_git_integrity_or_abort` ends: normal return,
`sys.exit(code)`, or an uncaught exception. -/
inductive Outcome
  | normal
  | exited (code : Nat)
  | abrupt (e : PyErr)
deriving DecidableEq

/-- The world as seen by the module: `pathExists` answers
`os.path.exists`, `gitProbe` the availability probe, `shell s` the result
of `subprocess.check_output(s, shell=True)` (`none` = non-zero exit =
`CalledProcessError`), and `decodeFS` models
`bytes.decode(sys.getfilesystemencoding())` (assumed total). -/
structure Env where
  pathExists : String → Bool
  gitProbe : ProbeResult
  shell : String → Option (List Nat)
  decodeFS : List Nat → String

/-- Python `posixpath.join` restricted to two arguments, as used by
`os.path.join(dir, ...)` in the source. -/
def osPathJoin (a b : String) : String :=
  if b.data.head? = some '/' then b
  else if a.data.isEmpty then a ++ b
  else if a.data.getLast? = some '/' then a ++ b
  else a ++ "/" ++ b

/-! ## The operations of `mypy/git.py` -/

/-- Source `is_git_repo(dir)`: `os.path.exists(os.path.join(dir, ".git"))`. -/
def is_git_repo (env : Env) (dir : String) : Bool :=
  env.pathExists (osPathJoin dir ".git")

/-- Source `have_git()`: runs the probe, catching only `CalledProcessError`.
`FileNotFoundError` (git not on the search path) propagates. -/
def have_git (env : Env) : Except PyErr Bool :=
  match env.gitProbe with
  | .success => .ok true
  | .exitFailure => .ok false
  | .fileNotFound => .error .fileNotFoundError

/-- Source `run_in_dir(dir, command)`: `check_output("cd " + pipes.quote(dir) +
"; " + command, shell=True)`; `none` models `CalledProcessError`. -/
def run_in_dir (env : Env) (dir command : String) : Option (List Nat) :=
  env.shell (run_in_dir_command dir command)

def gitSubmoduleStatusCmd : String := "git submodule status"
def gitRevParseCmd : String := "git rev-parse HEAD"
def gitStatusPorcelainCmd : String := "git status -uno --porcelain"
def gitCleanDryRunCmd : String := "git clean --dry-run -d"

/-- One step of the `get_submodules` generator body on a line of
`git submodule status` output:
`status = line[0]` (IndexError on an empty line), then
`sha5, name, *_ = line[1:].split(b" ")` (ValueError when the split yields
fewer than two fields). -/
def parse_submodule_line (line : List Nat) :
    Except PyErr (Nat × List Nat × List Nat) :=
  match line with
  | [] => .error .indexError
  | b :: rest =>
    match splitOnSpace rest with
    | sha5 :: name :: _ => .ok (b, sha5, name)
    | _ => .error .valueError

/-- All values the `get_submodules` generator yields, or the first
exception it raises, with names still as bytes. -/
def parseLines : List (List Nat) → Except PyErr (List (Nat × List Nat × List Nat))
  | [] => .ok []
  | l :: ls =>
    match parse_submodule_line l with
    | .error e => .error e
    | .ok v =>
      match parseLines ls with
      | .error e => .error e
      | .ok vs => .ok (v :: vs)

/-- Source `get_submodules(dir)` run to exhaustion: the list of yielded triples
`(status, sha5, name.decode(...))`, or the first exception. -/
def get_submodules (env : Env) (dir : String) :
    Except PyErr (List (Nat × List Nat × String)) :=
  match run_in_dir env dir gitSubmoduleStatusCmd with
  | none => .error .calledProcessError
  | some out =>
    (parseLines (splitlinesB out)).map
      (List.map (fun t => (t.1, t.2.1, env.decodeFS t.2.2)))

/-- Source `git_revision(dir)`: `run_in_dir(dir, "git rev-parse HEAD").strip()`. -/
def git_revision (env : Env) (dir : String) : Option (List Nat) :=
  (run_in_dir env dir gitRevParseCmd).map stripBytes

/-- Source `is_dirty(dir)`: trimmed porcelain status output is non-empty. -/
def is_dirty (env : Env) (dir : String) : Option Bool :=
  (run_in_dir env dir gitStatusPorcelainCmd).map
    (fun o => decide (stripBytes o ≠ []))

/-- Source `has_extra_files(dir)`: trimmed dry-run clean output is non-empty. -/
def has_extra_files (env : Env) (dir : String) : Option Bool :=
  (run_in_dir env dir gitCleanDryRunCmd).map
    (fun o => decide (stripBytes o ≠ []))

/-- The `for _, revision, submodule in get_submodules(datadir)` loop of
`verify_git_integrity_or_abort`, one generator item at a time (each line
is parsed only when the loop reaches it, as the generator does).  Returns
the stderr lines written and how the call ends. -/
def verifyLoop (env : Env) (datadir : String) :
    List (List Nat) → List String × Outcome
  | [] => ([], .normal)
  | line :: rest =>
    match parse_submodule_line line with
    | .error e => ([], .abrupt e)
    | .ok (_, revision, nameB) =>
      let submodule := env.decodeFS nameB
      let submodule_path := osPathJoin datadir submodule
      if is_git_repo env submodule_path = false then
        (error_submodule_not_init_msgs submodule datadir, .exited 1)
      else
        match git_revision env submodule_path with
        | none => ([], .abrupt .calledProcessError)
        | some actual =>
          if revision ≠ actual then
            (error_submodule_not_updated_msgs submodule datadir, .exited 1)
          else
            match is_dirty env submodule_path with
            | none => ([], .abrupt .calledProcessError)
            | some true =>
              let r := verifyLoop env datadir rest
              (warn_dirty_msg submodule :: r.1, r.2)
            | some false =>
              match has_extra_files env submodule_path with
              | none => ([], .abrupt .calledProcessError)
              | some true =>
                let r := verifyLoop env datadir rest
                (warn_extra_files_msg submodule :: r.1, r.2)
              | some false => verifyLoop env datadir rest

/-- Source `verify_git_integrity_or_abort(datadir)`: stderr lines and outcome. -/
def verify_git_integrity_or_abort (env : Env) (datadir : String) :
    List String × Outcome :=
  if is_git_repo env datadir = false then ([], .normal)
  else
    match have_git env with
    | .error e => ([], .abrupt e)
    | .ok false => ([warn_no_git_executable_msg], .normal)
    | .ok true =>
      match run_in_dir env datadir gitSubmoduleStatusCmd with
      | none => ([], .abrupt .calledProcessError)
      | some out => verifyLoop env datadir (splitlinesB out)

/-! ## Derived predicates describing how the loop treats one entry -/

/-- The loop body neither exits nor raises on this line: it parses, the
submodule directory is a repository, the recorded and actual revisions
agree, and the dirty/extra-files queries succeed. -/
def entryContinues (env : Env) (datadir : String) (line : List Nat) : Bool :=
  match parse_submodule_line line with
  | .error _ => false
  | .ok (_, revision, nameB) =>
    let p := osPathJoin datadir (env.decodeFS nameB)
    is_git_repo env p &&
      match git_revision env p with
      | none => false
      | some actual =>
        decide (revision = actual) &&
          match is_dirty env p with
          | none => false
          | some true => true
          | some false => (has_extra_files env p).isSome

/-- The stderr lines the loop body writes for this line when it
continues (empty, a dirty warning, or an untracked-files warning). -/
def entryMsgs (env : Env) (datadir : String) (line : List Nat) : List String :=
  match parse_submodule_line line with
  | .error _ => []
  | .ok (_, revision, nameB) =>
    let nm := env.decodeFS nameB
    let p := osPathJoin datadir nm
    if is_git_repo env p = false then []
    else
      match git_revision env p with
      | none => []
      | some actual =>
        if revision ≠ actual then []
        else
          match is_dirty env p with
          | none => []
          | some true => [warn_dirty_msg nm]
          | some false =>
            match has_extra_files env p with
            | some true => [warn_extra_files_msg nm]
            | _ => []

/-- A fully clean entry: parses, repository present, revisions agree,
not dirty, no extra files (the loop is silent and continues). -/
def entryClean (env : Env) (datadir : String) (line : List Nat) : Bool :=
  match parse_submodule_line line with
  | .error _ => false
  | .ok (_, revision, nameB) =>
    let p := osPathJoin datadir (env.decodeFS nameB)
    is_git_repo env p &&
      match git_revision env p with
      | none => false
      | some actual =>
        decide (revision = actual) &&
          (is_dirty env p == some false) &&
          (has_extra_files env p == some false)

/-! ## Spec-side reading of the line parse (for the refinement claim)

The specification describes the parse as splitting the remainder of the
line "on the first run of whitespace"; the following definitions follow
those words (Python `bytes.split()` with no separator: runs of whitespace
separate fields, no empty fields). -/

/-- Split on runs of ASCII whitespace, discarding empty fields. -/
def splitWSAux : List Nat → List Nat → List (List Nat)
  | [], cur => if cur.isEmpty then [] else [cur]
  | b :: bs, cur =>
    if isSpaceByte b then
      if cur.isEmpty then splitWSAux bs [] else cur :: splitWSAux bs []
    else splitWSAux bs (cur ++ [b])

def splitOnWhitespaceRuns (bs : List Nat) : List (List Nat) :=
  splitWSAux bs []

/-- The submodule-status line parse as the specification words it:
first byte is the status marker, the remainder is split on runs of
whitespace into short hash and name, extra fields ignored. -/
def parse_submodule_line_spec (line : List Nat) :
    Option (Nat × List Nat × List Nat) :=
  match line with
  | [] => none
  | b :: rest =>
    match splitOnWhitespaceRuns rest with
    | sha5 :: name :: _ => some (b, sha5, name)
    | _ => none

/-! ## Lemmas about `splitOnSpace` (the Python `split(b" ")` semantics) -/

lemma splitOnSpace_no_space : ∀ {s : List Nat}, 32 ∉ s → splitOnSpace s = [s]
  | [], _ => rfl
  | c :: cs, h => by
    have hc : ¬ c = 32 := fun hc => h (hc ▸ List.mem_cons_self c cs)
    have ih := splitOnSpace_no_space (s := cs) (fun hm => h (List.mem_cons_of_mem c hm))
    simp [splitOnSpace, hc, ih]

lemma splitOnSpace_append : ∀ {s : List Nat} (t : List Nat), 32 ∉ s →
    splitOnSpace (s ++ 32 :: t) = s :: splitOnSpace t
  | [], t, _ => by simp [splitOnSpace]
  | c :: cs, t, h => by
    have hc : ¬ c = 32 := fun hc => h (hc ▸ List.mem_cons_self c cs)
    have ih := splitOnSpace_append (s := cs) t (fun hm => h (List.mem_cons_of_mem c hm))
    simp [splitOnSpace, hc, ih]

/-- C3 counterexample input: the line `+hh␠␠nm` (two spaces between hash
and name).  The code parses the name as the empty byte string, while the
split-on-runs-of-whitespace reading of the spec recovers `nm`. -/
theorem parse_not_robust_to_space_runs :
    parse_submodule_line [43, 104, 104, 32, 32, 110, 109] =
      .ok (43, [104, 104], []) ∧
    parse_submodule_line_spec [43, 104, 104, 32, 32, 110, 109] =
      some (43, [104, 104], [110, 109]) ∧
    ¬ ([] : List Nat) = [110, 109] := by decide

/-- C3 (amended): each output line is parsed as first byte = status
marker, remainder split on every **single** space byte; the first two
fields are the short hash and the name and any further fields are ignored
(so the parse is robust to extra trailing single-space-separated fields),
but a run of two or more spaces yields empty fields, so the name parses
as empty. -/
theorem parse_submodule_line_single_space_split :
    (∀ (st : Nat) (s n : List Nat), 32 ∉ s → 32 ∉ n →
      parse_submodule_line (st :: (s ++ 32 :: n)) = .ok (st, s, n)) ∧
    (∀ (st : Nat) (s n junk : List Nat), 32 ∉ s → 32 ∉ n →
      parse_submodule_line (st :: (s ++ 32 :: (n ++ 32 :: junk))) = .ok (st, s, n)) ∧
    (∀ (st : Nat) (s n : List Nat), 32 ∉ s →
      parse_submodule_line (st :: (s ++ 32 :: 32 :: n)) = .ok (st, s, [])) := by
  refine ⟨?_, ?_, ?_⟩
  · intro st s n hs hn
    simp [parse_submodule_line, splitOnSpace_append _ hs, splitOnSpace_no_space hn]
  · intro st s n junk hs hn
    simp [parse_submodule_line, splitOnSpace_append _ hs, splitOnSpace_append _ hn]
  · intro st s n hs
    simp [parse_submodule_line, splitOnSpace_append _ hs, splitOnSpace]

theorem parse_submodule_line_single_space_split_witness :
    parse_submodule_line [43, 104, 32, 110] = .ok (43, [104], [110]) ∧
    parse_submodule_line [43, 104, 32, 110, 32, 106] = .ok (43, [104], [110]) ∧
    parse_submodule_line [43, 104, 32, 32, 110] = .ok (43, [104], []) :=
  ⟨parse_submodule_line_single_space_split.1 43 [104] [110]
      (by decide) (by decide),
   parse_submodule_line_single_space_split.2.1 43 [104] [110] [106]
      (by decide) (by decide),
   parse_submodule_line_single_space_split.2.2 43 [104] [110] (by decide)⟩

/-! ## Lemmas about the shell lexer and `pipes.quote` (claim C4) -/

lemma safeChar_ne_squote {c : Char} (h : safeChar c = true) : ¬ c = squoteC := by
  rintro rfl; exact absurd h (by decide)

lemma safeChar_ne_dquote {c : Char} (h : safeChar c = true) : ¬ c = dquoteC := by
  rintro rfl; exact absurd h (by decide)

lemma safeChar_ne_space {c : Char} (h : safeChar c = true) : ¬ c = ' ' := by
  rintro rfl; exact absurd h (by decide)

lemma safeChar_ne_semi {c : Char} (h : safeChar c = true) : ¬ c = ';' := by
  rintro rfl; exact absurd h (by decide)

lemma safeChar_not_mem_specials {c : Char} (h : safeChar c = true) :
    c ∉ shellSpecials := by
  intro hm
  fin_cases hm <;> exact absurd h (by decide)

/-! Single-step unfoldings of `lexAux`, one per kind of character. -/

lemma lexAux_normal_squote (cs : List Char) (b : Bool) (cur : List Char)
    (acc : List (List Char)) :
    lexAux .normal (squoteC :: cs) b cur acc = lexAux .single cs true cur acc := by
  simp only [lexAux]; simp

lemma lexAux_normal_dquote (cs : List Char) (b : Bool) (cur : List Char)
    (acc : List (List Char)) :
    lexAux .normal (dquoteC :: cs) b cur acc = lexAux .double cs true cur acc := by
  simp only [lexAux]
  rw [if_neg (by decide : ¬ dquoteC = squoteC)]; simp

lemma lexAux_normal_space (cs : List Char) (b : Bool) (cur : List Char)
    (acc : List (List Char)) :
    lexAux .normal (' ' :: cs) b cur acc =
      lexAux .normal cs false [] (acc ++ (if b then [cur] else [])) := by
  simp only [lexAux]
  rw [if_neg (by decide : ¬ (' ' = squoteC)), if_neg (by decide : ¬ (' ' = dquoteC))]
  simp

lemma lexAux_normal_semi (cs : List Char) (b : Bool) (cur : List Char)
    (acc : List (List Char)) :
    lexAux .normal (';' :: cs) b cur acc =
      some (acc ++ (if b then [cur] else []), cs) := by
  simp only [lexAux]
  rw [if_neg (by decide : ¬ (';' = squoteC)), if_neg (by decide : ¬ (';' = dquoteC)),
    if_neg (by decide : ¬ (';' = ' '))]
  simp

lemma lexAux_normal_plain {c : Char} (h1 : ¬ c = squoteC) (h2 : ¬ c = dquoteC)
    (h3 : ¬ c = ' ') (h4 : ¬ c = ';') (h5 : c ∉ shellSpecials)
    (cs : List Char) (b : Bool) (cur : List Char) (acc : List (List Char)) :
    lexAux .normal (c :: cs) b cur acc = lexAux .normal cs true (cur ++ [c]) acc := by
  simp only [lexAux]
  rw [if_neg h1, if_neg h2, if_neg h3, if_neg h4, if_neg h5]

lemma lexAux_single_squote (cs : List Char) (b : Bool) (cur : List Char)
    (acc : List (List Char)) :
    lexAux .single (squoteC :: cs) b cur acc = lexAux .normal cs true cur acc := by
  simp only [lexAux]; simp

lemma lexAux_single_other {c : Char} (h : ¬ c = squoteC) (cs : List Char) (b : Bool)
    (cur : List Char) (acc : List (List Char)) :
    lexAux .single (c :: cs) b cur acc = lexAux .single cs true (cur ++ [c]) acc := by
  simp only [lexAux]; rw [if_neg h]

lemma lexAux_double_dquote (cs : List Char) (b : Bool) (cur : List Char)
    (acc : List (List Char)) :
    lexAux .double (dquoteC :: cs) b cur acc = lexAux .normal cs true cur acc := by
  simp only [lexAux]; simp

lemma lexAux_double_squote (cs : List Char) (b : Bool) (cur : List Char)
    (acc : List (List Char)) :
    lexAux .double (squoteC :: cs) b cur acc =
      lexAux .double cs true (cur ++ [squoteC]) acc := by
  simp only [lexAux]
  rw [if_neg (by decide : ¬ squoteC = dquoteC),
    if_neg (by decide : ¬ (squoteC = '$' ∨ squoteC = backtickC ∨ squoteC = backslashC))]

/-- Consuming a word of safe characters in normal mode appends it to the
current word. -/
lemma lexAux_safe_word : ∀ (s : List Char), s.all safeChar = true →
    ∀ (rest : List Char) (b : Bool) (cur : List Char) (acc : List (List Char)),
    lexAux .normal (s ++ rest) b cur acc =
      lexAux .normal rest (b || !s.isEmpty) (cur ++ s) acc
  | [], _, rest, b, cur, acc => by simp
  | c :: cs, hall, rest, b, cur, acc => by
    rw [List.all_cons, Bool.and_eq_true] at hall
    obtain ⟨hc, hcs⟩ := hall
    rw [List.cons_append,
      lexAux_normal_plain (safeChar_ne_squote hc) (safeChar_ne_dquote hc)
        (safeChar_ne_space hc) (safeChar_ne_semi hc) (safeChar_not_mem_specials hc),
      lexAux_safe_word cs hcs rest true (cur ++ [c]) acc]
    simp

/-- Consuming the `pipes.quote` escape expansion inside single quotes
appends the original characters to the current word. -/
lemma lexAux_single_replace : ∀ (s rest cur : List Char) (acc : List (List Char)),
    lexAux .single (replaceSquote s ++ rest) true cur acc =
      lexAux .single rest true (cur ++ s) acc
  | [], rest, cur, acc => by simp [replaceSquote]
  | c :: cs, rest, cur, acc => by
    by_cases hc : c = squoteC
    · subst hc
      have hrw : replaceSquote (squoteC :: cs) =
          squoteC :: dquoteC :: squoteC :: dquoteC :: squoteC :: replaceSquote cs := by
        simp [replaceSquote, quoteEsc]
      rw [hrw, List.cons_append, List.cons_append, List.cons_append,
        List.cons_append, List.cons_append,
        lexAux_single_squote, lexAux_normal_dquote, lexAux_double_squote,
        lexAux_double_dquote, lexAux_normal_squote,
        lexAux_single_replace cs rest (cur ++ [squoteC]) acc]
      simp
    · have hrw : replaceSquote (c :: cs) = c :: replaceSquote cs := by
        simp [replaceSquote, hc]
      rw [hrw, List.cons_append, lexAux_single_other hc,
        lexAux_single_replace cs rest (cur ++ [c]) acc]
      simp

/-- The lexer recovers exactly the original directory string from its
`pipes.quote` image, as one word, stopping at the command separator. -/
lemma lexAux_quoted_dir (d : List Char) (rest : List Char) (acc : List (List Char)) :
    lexAux .normal (shellQuoteL d ++ (';' :: rest)) false [] acc =
      some (acc ++ [d], rest) := by
  by_cases hnil : d = []
  · subst hnil
    have hq : shellQuoteL ([] : List Char) = [squoteC, squoteC] := by
      simp [shellQuoteL]
    rw [hq, List.cons_append, List.cons_append, List.nil_append,
      lexAux_normal_squote, lexAux_single_squote, lexAux_normal_semi]
    simp
  · by_cases hsafe : d.all safeChar = true
    · have hq : shellQuoteL d = d := by simp [shellQuoteL, hnil, hsafe]
      rw [hq, lexAux_safe_word d hsafe (';' :: rest) false [] acc,
        lexAux_normal_semi]
      have hne : d.isEmpty = false := by
        cases d with
        | nil => exact absurd rfl hnil
        | cons a l => rfl
      simp [hne]
    · have hq : shellQuoteL d = squoteC :: (replaceSquote d ++ [squoteC]) := by
        simp [shellQuoteL, hnil, hsafe]
      rw [hq, List.cons_append, List.append_assoc, List.singleton_append,
        lexAux_normal_squote,
        lexAux_single_replace d (squoteC :: ';' :: rest) [] acc,
        lexAux_single_squote, lexAux_normal_semi]
      simp

lemma string_data_append (a b : String) : (a ++ b).data = a.data ++ b.data := by
  cases a; cases b; rfl

/-- C4: for every directory path `dir` (including paths containing
spaces, quotes or other shell metacharacters) and every command, the
shell string built by `run_in_dir` lexes so that its first simple
command is exactly `cd` applied to the single argument `dir`, with the
original command (after the separating space) as the untouched
remainder: the escaped path contributes only data, never command
structure, so the command executes in exactly the directory `dir`. -/
theorem run_in_dir_command_parses_as_cd_dir (dir command : String) :
    lexFirstCommandS (run_in_dir_command dir command) =
      some (["cd", dir], " " ++ command) := by
  have hdata : (run_in_dir_command dir command).data =
      'c' :: 'd' :: ' ' :: (shellQuoteL dir.data ++ (';' :: ' ' :: command.data)) := by
    simp [run_in_dir_command, string_data_append, shellQuote]
  unfold lexFirstCommandS lexFirstCommand
  rw [hdata,
    lexAux_normal_plain (by decide) (by decide) (by decide) (by decide) (by decide),
    lexAux_normal_plain (by decide) (by decide) (by decide) (by decide) (by decide),
    lexAux_normal_space]
  norm_num
  rw [lexAux_quoted_dir dir.data (' ' :: command.data) [['c', 'd']]]
  have h1 : String.mk dir.data = dir := by cases dir; rfl
  have h2 : String.mk (' ' :: command.data) = " " ++ command := by cases command; rfl
  have h3 : String.mk ['c', 'd'] = "cd" := by decide
  exact ⟨[['c', 'd'], dir.data], ' ' :: command.data, rfl,
    by simp only [List.map_cons, List.map_nil, h1, h3], h2⟩

/-! ## How the loop treats one entry -/

/-- If an entry lets the loop continue, the loop on `line :: rest` emits
this entry's messages and then behaves exactly as the loop on `rest`. -/
lemma verifyLoop_cons_continues (env : Env) (d : String) (line : List Nat)
    (rest : List (List Nat)) (h : entryContinues env d line = true) :
    verifyLoop env d (line :: rest) =
      (entryMsgs env d line ++ (verifyLoop env d rest).1,
       (verifyLoop env d rest).2) := by
  cases hp : parse_submodule_line line with
  | error e =>
    simp [entryContinues, hp] at h
  | ok v =>
    obtain ⟨st, rev, nmB⟩ := v
    simp only [entryContinues, hp] at h
    rw [Bool.and_eq_true] at h
    obtain ⟨h1, h2⟩ := h
    have hrepo : (is_git_repo env (osPathJoin d (env.decodeFS nmB)) = false) = False := by
      simp [h1]
    simp only [verifyLoop, entryMsgs, hp, hrepo, if_false]
    cases hr : git_revision env (osPathJoin d (env.decodeFS nmB)) with
    | none => rw [hr] at h2; simp at h2
    | some actual =>
      rw [hr] at h2
      simp only [Bool.and_eq_true, decide_eq_true_eq] at h2
      obtain ⟨h3, h4⟩ := h2
      have hne : (rev ≠ actual) = False := by simp [h3]
      simp only [hne, if_false]
      cases hd : is_dirty env (osPathJoin d (env.decodeFS nmB)) with
      | none => rw [hd] at h4; simp at h4
      | some b =>
        rw [hd] at h4
        cases b with
        | true => simp
        | false =>
          cases he : has_extra_files env (osPathJoin d (env.decodeFS nmB)) with
          | none => rw [he] at h4; simp at h4
          | some b2 => cases b2 <;> simp

/-- Processing a prefix of entries that all continue contributes exactly
their warning messages, then the loop proceeds on the remainder. -/
lemma verifyLoop_append_continues (env : Env) (d : String) :
    ∀ (pre xs : List (List Nat)), (∀ l ∈ pre, entryContinues env d l = true) →
    verifyLoop env d (pre ++ xs) =
      ((pre.map (entryMsgs env d)).flatten ++ (verifyLoop env d xs).1,
       (verifyLoop env d xs).2)
  | [], xs, _ => by simp
  | l :: ls, xs, h => by
    rw [List.cons_append,
      verifyLoop_cons_continues env d l (ls ++ xs) (h l (List.mem_cons_self l ls)),
      verifyLoop_append_continues env d ls xs
        (fun x hx => h x (List.mem_cons_of_mem l hx))]
    simp [List.append_assoc]

/-- A clean entry continues and is silent. -/
lemma entryClean_spec (env : Env) (d : String) (line : List Nat)
    (h : entryClean env d line = true) :
    entryContinues env d line = true ∧ entryMsgs env d line = [] := by
  cases hp : parse_submodule_line line with
  | error e => simp [entryClean, hp] at h
  | ok v =>
    obtain ⟨st, rev, nmB⟩ := v
    simp only [entryClean, hp] at h
    rw [Bool.and_eq_true] at h
    obtain ⟨h1, h2⟩ := h
    cases hr : git_revision env (osPathJoin d (env.decodeFS nmB)) with
    | none => rw [hr] at h2; simp at h2
    | some actual =>
      rw [hr] at h2
      simp only [Bool.and_eq_true, decide_eq_true_eq, beq_iff_eq] at h2
      obtain ⟨⟨h3, h4⟩, h5⟩ := h2
      constructor
      · simp [entryContinues, hp, hr, h1, h3, h4, h5]
      · simp [entryMsgs, hp, hr, h1, h3, h4, h5]

/-- The loop over clean entries only is silent and returns normally. -/
lemma verifyLoop_all_clean (env : Env) (d : String) :
    ∀ ls : List (List Nat), (∀ l ∈ ls, entryClean env d l = true) →
    verifyLoop env d ls = ([], .normal)
  | [], _ => rfl
  | l :: ls, h => by
    obtain ⟨hc, hm⟩ := entryClean_spec env d l (h l (List.mem_cons_self l ls))
    rw [verifyLoop_cons_continues env d l ls hc, hm,
      verifyLoop_all_clean env d ls (fun x hx => h x (List.mem_cons_of_mem l hx))]
    rfl

/-- C7: when the root is a repository, git is available, and every
submodule-status line describes a clean submodule (repository present,
revision matching, not dirty, no untracked files), the check writes
nothing to stderr and returns normally. -/
theorem verify_silent_when_all_clean (env : Env) (datadir : String) (out : List Nat)
    (hroot : is_git_repo env datadir = true)
    (hgit : have_git env = .ok true)
    (hout : run_in_dir env datadir gitSubmoduleStatusCmd = some out)
    (hall : ∀ l ∈ splitlinesB out, entryClean env datadir l = true) :
    verify_git_integrity_or_abort env datadir = ([], .normal) := by
  have h1 : (is_git_repo env datadir = false) = False := by simp [hroot]
  simp only [verify_git_integrity_or_abort, h1, if_false, hgit, hout]
  exact verifyLoop_all_clean env datadir (splitlinesB out) hall

/-- C1: the check exits with status 1 at the first fatal submodule entry
(directory not a repository, or actual head revision differing from the
recorded one), after the diagnostic naming that submodule; the result
does not depend on the entries after the fatal one (`rest` does not occur
in the right-hand sides), so no subsequent entry is evaluated. -/
theorem verify_exits_on_first_fatal (env : Env) (datadir : String) (out : List Nat)
    (pre rest : List (List Nat)) (line : List Nat) (st : Nat) (rev nmB : List Nat)
    (hroot : is_git_repo env datadir = true)
    (hgit : have_git env = .ok true)
    (hout : run_in_dir env datadir gitSubmoduleStatusCmd = some out)
    (hlines : splitlinesB out = pre ++ line :: rest)
    (hpre : ∀ l ∈ pre, entryContinues env datadir l = true)
    (hparse : parse_submodule_line line = .ok (st, rev, nmB)) :
    (is_git_repo env (osPathJoin datadir (env.decodeFS nmB)) = false →
      verify_git_integrity_or_abort env datadir =
        ((pre.map (entryMsgs env datadir)).flatten ++
          error_submodule_not_init_msgs (env.decodeFS nmB) datadir, .exited 1)) ∧
    (∀ actual : List Nat,
      is_git_repo env (osPathJoin datadir (env.decodeFS nmB)) = true →
      git_revision env (osPathJoin datadir (env.decodeFS nmB)) = some actual →
      ¬ rev = actual →
      verify_git_integrity_or_abort env datadir =
        ((pre.map (entryMsgs env datadir)).flatten ++
          error_submodule_not_updated_msgs (env.decodeFS nmB) datadir, .exited 1)) := by
  have hv : verify_git_integrity_or_abort env datadir =
      verifyLoop env datadir (pre ++ line :: rest) := by
    have h1 : (is_git_repo env datadir = false) = False := by simp [hroot]
    simp only [verify_git_integrity_or_abort, h1, if_false, hgit, hout, hlines]
  rw [hv, verifyLoop_append_continues env datadir pre (line :: rest) hpre]
  constructor
  · intro hnr
    have hx : (is_git_repo env (osPathJoin datadir (env.decodeFS nmB)) = false) = True := by
      simp [hnr]
    simp only [verifyLoop, hparse, hx, if_true]
  · intro actual h1 h2 h3
    have hx : (is_git_repo env (osPathJoin datadir (env.decodeFS nmB)) = false) = False := by
      simp [h1]
    have hy : (rev ≠ actual) = True := by simp [h3]
    simp only [verifyLoop, hparse, hx, if_false, h2, hy, if_true]

/-- C6 (and the warning half of the loop behaviour): a submodule whose
revision matches but which is dirty produces exactly one warning naming
it, no termination from this entry, and the loop continues with the
remaining entries. -/
theorem verify_warns_dirty_and_continues (env : Env) (datadir : String) (out : List Nat)
    (pre rest : List (List Nat)) (line : List Nat) (st : Nat) (rev nmB : List Nat)
    (hroot : is_git_repo env datadir = true)
    (hgit : have_git env = .ok true)
    (hout : run_in_dir env datadir gitSubmoduleStatusCmd = some out)
    (hlines : splitlinesB out = pre ++ line :: rest)
    (hpre : ∀ l ∈ pre, entryContinues env datadir l = true)
    (hparse : parse_submodule_line line = .ok (st, rev, nmB))
    (hrepoP : is_git_repo env (osPathJoin datadir (env.decodeFS nmB)) = true)
    (hrev : git_revision env (osPathJoin datadir (env.decodeFS nmB)) = some rev)
    (hdirty : is_dirty env (osPathJoin datadir (env.decodeFS nmB)) = some true) :
    verify_git_integrity_or_abort env datadir =
      ((pre.map (entryMsgs env datadir)).flatten ++
        (warn_dirty_msg (env.decodeFS nmB) :: (verifyLoop env datadir rest).1),
       (verifyLoop env datadir rest).2) := by
  have hv : verify_git_integrity_or_abort env datadir =
      verifyLoop env datadir (pre ++ line :: rest) := by
    have h1 : (is_git_repo env datadir = false) = False := by simp [hroot]
    simp only [verify_git_integrity_or_abort, h1, if_false, hgit, hout, hlines]
  have hx : (is_git_repo env (osPathJoin datadir (env.decodeFS nmB)) = false) = False := by
    simp [hrepoP]
  have hy : (rev ≠ rev) = False := by simp
  rw [hv, verifyLoop_append_continues env datadir pre (line :: rest) hpre]
  simp only [verifyLoop, hparse, hx, if_false, hrev, hy, hdirty]

/-- C5 (amended): when the root is a repository and the availability
probe fails with a non-zero exit status (`have_git` returns `False`),
the check writes exactly the one warning line and returns normally,
without consulting any submodule. -/
theorem verify_warns_once_on_probe_exit_failure (env : Env) (datadir : String)
    (hroot : is_git_repo env datadir = true)
    (hgit : have_git env = .ok false) :
    verify_git_integrity_or_abort env datadir =
      ([warn_no_git_executable_msg], .normal) := by
  have h1 : (is_git_repo env datadir = false) = False := by simp [hroot]
  simp only [verify_git_integrity_or_abort, h1, if_false, hgit]

/-! ## The availability probe and the missing-executable behaviour (C2, C5) -/

/-- A minimal world whose only variation is the probe outcome: the root
`/c2` is a repository, every shell command fails. -/
def probeEnv (r : ProbeResult) : Env :=
  { pathExists := fun p => p == "/c2/.git"
    gitProbe := r
    shell := fun _ => none
    decodeFS := fun _ => "" }

/-- C2: `have_git` returns `True` on probe success and `False` on a
non-zero probe exit; but when the git executable is missing from the
search path the probe raises `FileNotFoundError`, which `have_git` does
**not** catch (it catches only `CalledProcessError`), so instead of
returning `False` the whole check dies abruptly with zero warnings. -/
theorem have_git_missing_executable_propagates :
    have_git (probeEnv .success) = .ok true ∧
    have_git (probeEnv .exitFailure) = .ok false ∧
    have_git (probeEnv .fileNotFound) = .error .fileNotFoundError ∧
    ¬ have_git (probeEnv .fileNotFound) = .ok false ∧
    verify_git_integrity_or_abort (probeEnv .fileNotFound) "/c2" =
      ([], .abrupt .fileNotFoundError) := by decide

/-- A world where the root `/p2` is a repository and git is missing from
the search path. -/
def envToolMissing : Env :=
  { pathExists := fun p => p == "/p2/.git"
    gitProbe := .fileNotFound
    shell := fun _ => none
    decodeFS := fun _ => "" }

/-- C5 counterexample: with the VCS tool unavailable because the
executable is not on the search path, the check does **not** write one
warning line and return; it terminates abruptly with an uncaught
`FileNotFoundError` and writes nothing. -/
theorem verify_tool_missing_counterexample :
    is_git_repo envToolMissing "/p2" = true ∧
    verify_git_integrity_or_abort envToolMissing "/p2" =
      ([], .abrupt .fileNotFoundError) ∧
    ¬ verify_git_integrity_or_abort envToolMissing "/p2" =
      ([warn_no_git_executable_msg], .normal) := by decide

/-- A world where the root `/p` is a repository and the probe exits with
a non-zero status. -/
def envProbeFails : Env :=
  { pathExists := fun p => p == "/p/.git"
    gitProbe := .exitFailure
    shell := fun _ => none
    decodeFS := fun _ => "" }

theorem verify_warns_once_on_probe_exit_failure_witness :
    verify_git_integrity_or_abort envProbeFails "/p" =
      ([warn_no_git_executable_msg], .normal) :=
  verify_warns_once_on_probe_exit_failure envProbeFails "/p" (by decide) (by decide)

/-! ## Concrete worlds for the loop theorems (witnesses) -/

/-- Submodule-status output `+aaa s1\n+bbb s2`. -/
def outTwoSubs : List Nat :=
  [43, 97, 97, 97, 32, 115, 49, 10, 43, 98, 98, 98, 32, 115, 50]

/-- Root `/r` with submodule `s1` clean and matching, and `s2` whose
directory is not a repository. -/
def envFatalSecond : Env :=
  { pathExists := fun p => p == "/r/.git" || p == "/r/s1/.git"
    gitProbe := .success
    shell := fun s =>
      if s == run_in_dir_command "/r" gitSubmoduleStatusCmd then some outTwoSubs
      else if s == run_in_dir_command "/r/s1" gitRevParseCmd then some [97, 97, 97]
      else if s == run_in_dir_command "/r/s1" gitStatusPorcelainCmd then some []
      else if s == run_in_dir_command "/r/s1" gitCleanDryRunCmd then some []
      else none
    decodeFS := fun bs => if bs == [115, 49] then "s1" else "s2" }

theorem verify_exits_on_first_fatal_witness :
    verify_git_integrity_or_abort envFatalSecond "/r" =
      (([[43, 97, 97, 97, 32, 115, 49]].map (entryMsgs envFatalSecond "/r")).flatten ++
        error_submodule_not_init_msgs (envFatalSecond.decodeFS [115, 50]) "/r",
       .exited 1) :=
  (verify_exits_on_first_fatal envFatalSecond "/r" outTwoSubs
    [[43, 97, 97, 97, 32, 115, 49]] [] [43, 98, 98, 98, 32, 115, 50]
    43 [98, 98, 98] [115, 50]
    (by decide) (by decide) (by decide) (by decide) (by decide) (by decide)).1
    (by decide)

/-- Root `/r` with submodule `s1` dirty (but matching) and `s2` clean. -/
def envDirtyFirst : Env :=
  { pathExists := fun p =>
      p == "/r/.git" || p == "/r/s1/.git" || p == "/r/s2/.git"
    gitProbe := .success
    shell := fun s =>
      if s == run_in_dir_command "/r" gitSubmoduleStatusCmd then some outTwoSubs
      else if s == run_in_dir_command "/r/s1" gitRevParseCmd then some [97, 97, 97]
      else if s == run_in_dir_command "/r/s1" gitStatusPorcelainCmd then some [77]
      else if s == run_in_dir_command "/r/s2" gitRevParseCmd then some [98, 98, 98]
      else if s == run_in_dir_command "/r/s2" gitStatusPorcelainCmd then some []
      else if s == run_in_dir_command "/r/s2" gitCleanDryRunCmd then some []
      else none
    decodeFS := fun bs => if bs == [115, 49] then "s1" else "s2" }

theorem verify_warns_dirty_and_continues_witness :
    verify_git_integrity_or_abort envDirtyFirst "/r" =
      ((([] : List (List Nat)).map (entryMsgs envDirtyFirst "/r")).flatten ++
        (warn_dirty_msg (envDirtyFirst.decodeFS [115, 49]) ::
          (verifyLoop envDirtyFirst "/r" [[43, 98, 98, 98, 32, 115, 50]]).1),
       (verifyLoop envDirtyFirst "/r" [[43, 98, 98, 98, 32, 115, 50]]).2) :=
  verify_warns_dirty_and_continues envDirtyFirst "/r" outTwoSubs
    [] [[43, 98, 98, 98, 32, 115, 50]] [43, 97, 97, 97, 32, 115, 49]
    43 [97, 97, 97] [115, 49]
    (by decide) (by decide) (by decide) (by decide) (by decide) (by decide)
    (by decide) (by decide) (by decide)

/-- Root `/q` with a single clean submodule `s1`. -/
def envAllClean : Env :=
  { pathExists := fun p => p == "/q/.git" || p == "/q/s1/.git"
    gitProbe := .success
    shell := fun s =>
      if s == run_in_dir_command "/q" gitSubmoduleStatusCmd then
        some [43, 97, 97, 97, 32, 115, 49]
      else if s == run_in_dir_command "/q/s1" gitRevParseCmd then some [97, 97, 97]
      else if s == run_in_dir_command "/q/s1" gitStatusPorcelainCmd then some []
      else if s == run_in_dir_command "/q/s1" gitCleanDryRunCmd then some []
      else none
    decodeFS := fun _ => "s1" }

theorem verify_silent_when_all_clean_witness :
    verify_git_integrity_or_abort envAllClean "/q" = ([], .normal) :=
  verify_silent_when_all_clean envAllClean "/q" [43, 97, 97, 97, 32, 115, 49]
    (by decide) (by decide) (by decide) (by decide)

/-! ## C8: the check consults only the fixed read-only queries -/

/-- The only shell commands the module ever runs inside a directory:
submodule status listing, head revision lookup, porcelain status
restricted to tracked files, and dry-run clean.  (The availability probe
`git config -l` is modelled separately by `Env.gitProbe`.) -/
def readOnlyQueries : List String :=
  [gitSubmoduleStatusCmd, gitRevParseCmd, gitStatusPorcelainCmd, gitCleanDryRunCmd]

/-- C8: the outcome of the check depends on the world only through the
filesystem existence checks, the availability probe, the filesystem
decoding, and the shell's answers to the four read-only queries of
`readOnlyQueries`: two worlds agreeing on those (and free to differ on
every other command, e.g. any mutating one) produce identical stderr
output and identical exit behaviour — i.e. every external VCS command
issued is one of the fixed read-only queries. -/
theorem verify_depends_only_on_read_queries (e1 e2 : Env) (datadir : String)
    (hfs : e1.pathExists = e2.pathExists)
    (hp : e1.gitProbe = e2.gitProbe)
    (hd : e1.decodeFS = e2.decodeFS)
    (hsh : ∀ d q, q ∈ readOnlyQueries →
      e1.shell (run_in_dir_command d q) = e2.shell (run_in_dir_command d q)) :
    verify_git_integrity_or_abort e1 datadir =
      verify_git_integrity_or_abort e2 datadir := by
  have hrepo : ∀ p, is_git_repo e1 p = is_git_repo e2 p := by
    intro p; unfold is_git_repo; rw [hfs]
  have hrev : ∀ p, git_revision e1 p = git_revision e2 p := by
    intro p; unfold git_revision run_in_dir
    rw [hsh p gitRevParseCmd (by simp [readOnlyQueries])]
  have hdirty : ∀ p, is_dirty e1 p = is_dirty e2 p := by
    intro p; unfold is_dirty run_in_dir
    rw [hsh p gitStatusPorcelainCmd (by simp [readOnlyQueries])]
  have hextra : ∀ p, has_extra_files e1 p = has_extra_files e2 p := by
    intro p; unfold has_extra_files run_in_dir
    rw [hsh p gitCleanDryRunCmd (by simp [readOnlyQueries])]
  have hloop : ∀ ls, verifyLoop e1 datadir ls = verifyLoop e2 datadir ls := by
    intro ls
    induction ls with
    | nil => rfl
    | cons l ls ih =>
      cases hp2 : parse_submodule_line l with
      | error e => simp only [verifyLoop, hp2]
      | ok v =>
        obtain ⟨st, rev, nmB⟩ := v
        have hdn : e1.decodeFS nmB = e2.decodeFS nmB := by rw [hd]
        simp only [verifyLoop, hp2, hdn, hrepo, hrev, hdirty, hextra, ih]
  have hhg : have_git e1 = have_git e2 := by unfold have_git; rw [hp]
  have hss : run_in_dir e1 datadir gitSubmoduleStatusCmd =
      run_in_dir e2 datadir gitSubmoduleStatusCmd := by
    unfold run_in_dir
    exact hsh datadir gitSubmoduleStatusCmd (by simp [readOnlyQueries])
  simp only [verify_git_integrity_or_abort, hrepo, hhg, hss, hloop]

theorem verify_depends_only_on_read_queries_witness :
    verify_git_integrity_or_abort envAllClean "/q" =
      verify_git_integrity_or_abort envAllClean "/q" :=
  verify_depends_only_on_read_queries envAllClean envAllClean "/q"
    rfl rfl rfl (fun _ _ _ => rfl)

/-! ## C9: the status marker is never used -/

lemma splitOnSpace_ne_nil : ∀ bs : List Nat, ¬ splitOnSpace bs = []
  | [] => by simp [splitOnSpace]
  | b :: bs => by
    simp only [splitOnSpace]
    split
    · simp
    · split <;> simp

/-- Two submodule-status lines differing only in their first byte. -/
def statusTailRel (a b : List Nat) : Prop :=
  ¬ a = [] ∧ ¬ b = [] ∧ a.tail = b.tail

/-- C9: two runs whose submodule-status outputs differ only in the first
byte of each line (the status marker) produce identical stderr output
and identical exit behaviour: the marker is parsed but never used. -/
theorem verify_ignores_status_marker (e1 e2 : Env) (datadir : String)
    (outA outB : List Nat)
    (hfs : e1.pathExists = e2.pathExists)
    (hp : e1.gitProbe = e2.gitProbe)
    (hd : e1.decodeFS = e2.decodeFS)
    (hsh : ∀ d q, q ∈ [gitRevParseCmd, gitStatusPorcelainCmd, gitCleanDryRunCmd] →
      e1.shell (run_in_dir_command d q) = e2.shell (run_in_dir_command d q))
    (h1 : run_in_dir e1 datadir gitSubmoduleStatusCmd = some outA)
    (h2 : run_in_dir e2 datadir gitSubmoduleStatusCmd = some outB)
    (hrel : List.Forall₂ statusTailRel (splitlinesB outA) (splitlinesB outB)) :
    verify_git_integrity_or_abort e1 datadir =
      verify_git_integrity_or_abort e2 datadir := by
  have hrepo : ∀ p, is_git_repo e1 p = is_git_repo e2 p := by
    intro p; unfold is_git_repo; rw [hfs]
  have hrev : ∀ p, git_revision e1 p = git_revision e2 p := by
    intro p; unfold git_revision run_in_dir
    rw [hsh p gitRevParseCmd (by simp)]
  have hdirty : ∀ p, is_dirty e1 p = is_dirty e2 p := by
    intro p; unfold is_dirty run_in_dir
    rw [hsh p gitStatusPorcelainCmd (by simp)]
  have hextra : ∀ p, has_extra_files e1 p = has_extra_files e2 p := by
    intro p; unfold has_extra_files run_in_dir
    rw [hsh p gitCleanDryRunCmd (by simp)]
  have hloop : ∀ lsA lsB, List.Forall₂ statusTailRel lsA lsB →
      verifyLoop e1 datadir lsA = verifyLoop e2 datadir lsB := by
    intro lsA lsB h
    induction h with
    | nil => rfl
    | cons hab htl ih =>
      obtain ⟨ha, hb, htail⟩ := hab
      rename_i a b lsA2 lsB2
      obtain ⟨x, ta, rfl⟩ := List.exists_cons_of_ne_nil ha
      obtain ⟨y, tb, rfl⟩ := List.exists_cons_of_ne_nil hb
      simp only [List.tail_cons] at htail
      subst htail
      cases hsplit : splitOnSpace ta with
      | nil => exact absurd hsplit (splitOnSpace_ne_nil ta)
      | cons f fs =>
        cases fs with
        | nil => simp only [verifyLoop, parse_submodule_line, hsplit]
        | cons n rest2 =>
          have hdn : e1.decodeFS n = e2.decodeFS n := by rw [hd]
          simp only [verifyLoop, parse_submodule_line, hsplit, hdn,
            hrepo, hrev, hdirty, hextra, ih]
  have hhg : have_git e1 = have_git e2 := by unfold have_git; rw [hp]
  simp only [verify_git_integrity_or_abort, hrepo, hhg, h1, h2, hloop _ _ hrel]

/-- Root `/g` with one submodule line `-aaa s1` (whose directory is not a
repository — irrelevant for the hyperproperty, which needs no clean run). -/
def envMarkerDemo : Env :=
  { pathExists := fun p => p == "/g/.git"
    gitProbe := .success
    shell := fun s =>
      if s == run_in_dir_command "/g" gitSubmoduleStatusCmd then
        some [45, 97, 97, 97, 32, 115, 49]
      else none
    decodeFS := fun _ => "s1" }

theorem verify_ignores_status_marker_witness :
    verify_git_integrity_or_abort envMarkerDemo "/g" =
      verify_git_integrity_or_abort envMarkerDemo "/g" :=
  verify_ignores_status_marker envMarkerDemo envMarkerDemo "/g"
    [45, 97, 97, 97, 32, 115, 49] [45, 97, 97, 97, 32, 115, 49]
    rfl rfl rfl (fun _ _ _ => rfl) (by decide) (by decide)
    (List.Forall₂.cons ⟨by decide, by decide, rfl⟩ List.Forall₂.nil)

/-! ## C10: malformed lines raise, empty output yields nothing -/

lemma parseLines_error_of_prefix : ∀ (pre : List (List Nat)) (bad : List Nat)
    (rest : List (List Nat)) (e : PyErr),
    (∀ l ∈ pre, ∃ v, parse_submodule_line l = .ok v) →
    parse_submodule_line bad = .error e →
    parseLines (pre ++ bad :: rest) = .error e
  | [], bad, rest, e, _, hbad => by simp [parseLines, hbad]
  | l :: ls, bad, rest, e, hpre, hbad => by
    obtain ⟨v, hv⟩ := hpre l (List.mem_cons_self l ls)
    have ih := parseLines_error_of_prefix ls bad rest e
      (fun x hx => hpre x (List.mem_cons_of_mem l hx)) hbad
    simp [parseLines, hv, ih]

/-- C10: (1) a non-empty submodule-status line with no space byte after
its first byte makes `get_submodules` raise the unpacking `ValueError`
(no diagnostic, no controlled exit); (2) an empty output yields no
records and the check succeeds silently. -/
theorem get_submodules_unpack_error_and_empty :
    (∀ (env : Env) (dir : String) (out : List Nat) (pre rest : List (List Nat))
       (b : Nat) (t : List Nat),
      run_in_dir env dir gitSubmoduleStatusCmd = some out →
      splitlinesB out = pre ++ (b :: t) :: rest →
      (∀ l ∈ pre, ∃ v, parse_submodule_line l = .ok v) →
      32 ∉ t →
      get_submodules env dir = .error .valueError) ∧
    (∀ (env : Env) (dir : String),
      run_in_dir env dir gitSubmoduleStatusCmd = some [] →
      get_submodules env dir = .ok [] ∧
      (is_git_repo env dir = true → have_git env = .ok true →
        verify_git_integrity_or_abort env dir = ([], .normal))) := by
  constructor
  · intro env dir out pre rest b t hout hsplit hpre ht
    have hbad : parse_submodule_line (b :: t) = .error .valueError := by
      simp [parse_submodule_line, splitOnSpace_no_space ht]
    have hlines := parseLines_error_of_prefix pre (b :: t) rest .valueError hpre hbad
    simp only [get_submodules, hout, hsplit, hlines]
    rfl
  · intro env dir hout
    constructor
    · simp only [get_submodules, hout]
      rfl
    · intro hroot hgit
      have hx : (is_git_repo env dir = false) = False := by simp [hroot]
      simp only [verify_git_integrity_or_abort, hx, if_false, hgit, hout]
      rfl

/-- Root `/m` whose submodule-status output is the single spaceless line
`+ab`. -/
def envBadLine : Env :=
  { pathExists := fun p => p == "/m/.git"
    gitProbe := .success
    shell := fun s =>
      if s == run_in_dir_command "/m" gitSubmoduleStatusCmd then
        some [43, 97, 98]
      else none
    decodeFS := fun _ => "" }

/-- Root `/n` with no submodules at all (empty status output). -/
def envNoSubs : Env :=
  { pathExists := fun p => p == "/n/.git"
    gitProbe := .success
    shell := fun s =>
      if s == run_in_dir_command "/n" gitSubmoduleStatusCmd then some []
      else none
    decodeFS := fun _ => "" }

theorem get_submodules_unpack_error_and_empty_witness :
    get_submodules envBadLine "/m" = .error .valueError ∧
    (get_submodules envNoSubs "/n" = .ok [] ∧
      verify_git_integrity_or_abort envNoSubs "/n" = ([], .normal)) := by
  constructor
  · exact get_submodules_unpack_error_and_empty.1 envBadLine "/m"
      [43, 97, 98] [] [] 43 [97, 98]
      (by decide) (by decide) (by simp) (by decide)
  · have h := get_submodules_unpack_error_and_empty.2 envNoSubs "/n" (by decide)
    exact ⟨h.1, h.2 (by decide) (by decide)⟩

end GitVerify
